import Mathlib

/-!
Shallow embedding of the ERCOT public-reports archival pipeline
(`scripts/download_ercot_public_reports.py` and
`scripts/backfill_post_datetime.py`), together with proofs of the
specified properties of its checkpointing, listing cache, consolidation,
sorting, download and backfill logic.
-/

set_option linter.unusedVariables false

/-! ## Hour-ending parsing and row timestamps (`_parse_hour_ending_cached`, `_csv_row_timestamp`) -/

/-- ASCII whitespace recognized by the Python `str.strip()` method. -/
def isPySpace (c : Char) : Bool :=
  c = ' ' ∨ c = '\t' ∨ c = '\n' ∨ c = '\r' ∨ c = '\x0b' ∨ c = '\x0c'

/-- Python `str.strip()` over the character list of a string. -/
def pyStrip (l : List Char) : List Char :=
  ((l.dropWhile isPySpace).reverse.dropWhile isPySpace).reverse

/-- Python `str.strip()` returning a string. -/
def pyStripS (s : String) : String :=
  String.mk (pyStrip s.toList)

/-- Python `int(...)` on an all-digit string. -/
def digitsVal (l : List Char) : Nat :=
  l.foldl (fun n c => 10 * n + (c.toNat - 48)) 0

/-- The tail of `_parse_hour_ending_cached` once the digit run `left` is
extracted: empty means unparsed, hours above 24 are rejected, hour 24 becomes
(23, 59), anything else is on the hour. -/
def hourFromDigits (left : List Char) : Option (Nat × Nat) :=
  if left.isEmpty then none
  else
    let hour := digitsVal left
    if hour > 24 then none
    else if hour = 24 then some (23, 59)
    else some (hour, 0)

/-- Embedding of `_parse_hour_ending_cached`: take the part left of the first
colon (or the whole string), keep digits (`"".join(ch for ch in ... if
ch.isdigit())`), reject hours above 24, and map hour 24 to (23, 59) — the
last minute of the same day. -/
def parse_hour_ending_cached (raw : List Char) : Option (Nat × Nat) :=
  hourFromDigits
    (if raw.contains ':' then (raw.takeWhile (fun c => c ≠ ':')).filter Char.isDigit
     else raw.filter Char.isDigit)

/-- Embedding of `_parse_hour_ending`: strip, empty means unparsed. -/
def parse_hour_ending (value : String) : Option (Nat × Nat) :=
  let raw := pyStrip value.toList
  if raw.isEmpty then none else parse_hour_ending_cached raw

/-- A naive datetime as the sort key built by `_csv_row_timestamp`
for the date-plus-hour-ending strategy: `day.replace(hour=h, minute=m)`. -/
structure PyDateTime where
  day : Nat
  hour : Nat
  minute : Nat
deriving DecidableEq, Repr

/-- Python datetime comparison: lexicographic on (day, hour, minute). -/
def PyDateTime.Lt (a b : PyDateTime) : Prop :=
  a.day < b.day ∨ (a.day = b.day ∧ (a.hour < b.hour ∨ (a.hour = b.hour ∧ a.minute < b.minute)))

instance (a b : PyDateTime) : Decidable (PyDateTime.Lt a b) := by
  unfold PyDateTime.Lt; infer_instance

/-- `day.replace(hour=hm[0], minute=hm[1])` from the
date-column-plus-hour-ending-column branch of `_csv_row_timestamp` (the parsed date has hour 0,
minute 0; replace keeps the calendar day). -/
def replaceTime (d : PyDateTime) (hm : Nat × Nat) : PyDateTime :=
  ⟨d.day, hm.1, hm.2⟩

/-! ## Streaming download with candidate fallback (`ErcotPublicReportsClient.download_doc`) -/

/-- Outcome of requesting one download candidate. A candidate either streams a
full body, fails with an HTTP status after writing some truncated prefix of the
body to the temp file, or fails with a non-HTTP error likewise mid-stream. -/
inductive CandidateOutcome where
  | full (body : List Nat)
  | httpError (status : Nat) (written : List Nat)
  | netError (written : List Nat)
deriving DecidableEq, Repr

/-- The destination file and its `.part` temporary sibling. -/
structure DownloadFS where
  dest : Option (List Nat)
  tmp : Option (List Nat)
deriving DecidableEq, Repr

/-- Statuses on which `download_doc` advances to the next candidate. -/
def RETRYABLE_STATUSES : List Nat := [400, 404, 429, 500, 502, 503, 504]

/-- Embedding of `ErcotPublicReportsClient.download_doc`: stream each candidate
into the `.part` temp file; on a complete body, rename the temp file over the
destination; on an `HTTPError` with a retryable status that is not the last
candidate, continue; otherwise propagate the failure (`Bool` result: success).
An exhausted candidate list raises `RuntimeError`. -/
def download_doc : List CandidateOutcome → DownloadFS → DownloadFS × Bool
  | [], fs => (fs, false)
  | c :: rest, fs =>
    match c with
    | .full body =>
      ({ dest := some body, tmp := none }, true)
    | .httpError status written =>
      let fs := { fs with tmp := some written }
      if status ∈ RETRYABLE_STATUSES ∧ rest ≠ [] then download_doc rest fs
      else (fs, false)
    | .netError written =>
      ({ fs with tmp := some written }, false)

/-! ## ZIP extraction guard (`maybe_extract_zip`) -/

/-- One step of `Path.resolve()`-style lexical normalization over path
components. -/
def resolveStep (stack : List String) (c : String) : List String :=
  if c = "." ∨ c = "" then stack
  else if c = ".." then stack.dropLast
  else stack ++ [c]

/-- `Path.resolve()` on a rooted component list: drop `.`, apply `..`. -/
def resolvePath (comps : List String) : List String :=
  comps.foldl resolveStep []

/-- `str(member_resolved).startswith(str(target_dir) + os.sep) or
member_resolved == target_dir`, over resolved component lists. -/
def memberInside (target member : List String) : Bool :=
  target.isPrefixOf (resolvePath (target ++ member))

/-- The member-validation loop of `maybe_extract_zip`: raise on the first
member resolving outside the target directory. -/
def checkMembers (target : List String) : List (List String) → Except String Unit
  | [] => .ok ()
  | m :: rest =>
    if memberInside target m then checkMembers target rest
    else .error "ZIP path traversal rejected"

/-- Embedding of `maybe_extract_zip`: non-`.zip` paths are ignored; every
member of a ZIP is validated before `extractall`; a member resolving outside
the parent directory raises `RuntimeError` with nothing extracted. The `.ok`
payload is the list of members actually extracted. -/
def maybe_extract_zip (isZip : Bool) (parentDir : List String)
    (members : List (List String)) : Except String (List (List String)) :=
  if !isZip then .ok []
  else
    let target := resolvePath parentDir
    match checkMembers target members with
    | .ok _ => .ok members
    | .error e => .error e

/-! ## Consolidation Store: marker-guarded merge (`main`, consolidate-monthly path) -/

/-- The per-period consolidation state: the Merge Marker (`.docids` contents,
mirrored by the in-memory `marker_cache`) and the data rows of the monthly CSV. -/
structure ConsolidationState where
  marker : List String
  monthly : List String
deriving DecidableEq, Repr

/-- Embedding of the per-item consolidate-monthly step of `main`: if the item
identifier is already in the Merge Marker the item is skipped before any fetch
or append (`if doc_id in known_doc_ids: ... continue`); otherwise its parsed
rows are appended to the monthly CSV (`append_doc_to_monthly_csv`) and the
identifier is appended to the marker (`append_marker_doc_id`). The `Bool`
result records whether a fetch/append happened. -/
def processDoc (st : ConsolidationState) (docId : String)
    (payloadRows : List String) : ConsolidationState × Bool :=
  if docId ∈ st.marker then (st, false)
  else ({ marker := st.marker ++ [docId], monthly := st.monthly ++ payloadRows }, true)

/-- The per-dataset item-processing phase of `main`: the listed docs are
processed in order, each through the marker-guarded merge step;
`save_doc_checkpoint` persists `next_doc_index = i + 1` after item `i`, and
the period files and Merge Markers (the `ConsolidationState`) persist on disk
across a crash, so a restart resumes this fold at the checkpointed index over
the same ordered doc list. -/
def processDocs (st : ConsolidationState) :
    List (String × List String) → ConsolidationState
  | [] => st
  | d :: rest => processDocs (processDoc st d.1 d.2).1 rest

/-! ## Checkpoint Store: Dataset Window compatibility (`dataset_state_is_compatible`, `main`) -/

/-- The seven Dataset Window fields of the current run, as `main` passes them
(`window_from`/`window_to` already in ISO form). -/
structure WindowArgs where
  dataset_id : String
  window_from : String
  window_to : String
  page_size : Int
  download_order : String
  max_docs_per_dataset : Int
  archive_url : String
deriving DecidableEq, Repr

/-- The JSON checkpoint record as loaded by `load_dataset_state`; a missing or
non-coercible key is `none` (for the integer fields `_safe_int` supplies the
default at the comparison site). An absent/corrupt/empty file is modelled as
`none` at the `Option LoadedState` level. -/
structure LoadedState where
  dataset_id : Option String
  window_from : Option String
  window_to : Option String
  page_size : Option Int
  download_order : Option String
  max_docs_per_dataset : Option Int
  archive_url : Option String
  status : Option String
  listing_complete : Option Bool
  last_listed_page : Option Int
  total_listed_docs : Option Int
  next_doc_index : Option Int
deriving DecidableEq, Repr

/-- Embedding of `dataset_state_is_compatible`: an empty record is
incompatible; otherwise all seven Dataset Window fields must match exactly,
with `""` / `-1` defaults for missing keys as in the source. -/
def dataset_state_is_compatible (state : Option LoadedState) (a : WindowArgs) : Bool :=
  match state with
  | none => false
  | some s =>
    s.dataset_id.getD "" == a.dataset_id
    && s.window_from.getD "" == a.window_from
    && s.window_to.getD "" == a.window_to
    && s.page_size.getD (-1) == a.page_size
    && s.download_order.getD "" == a.download_order
    && s.max_docs_per_dataset.getD (-1) == a.max_docs_per_dataset
    && s.archive_url.getD "" == a.archive_url

/-- The progress fields of the in-memory dataset state that the resume region
of `main` manipulates (the window fields always match the current run there). -/
structure DatasetState where
  status : String
  listing_complete : Bool
  last_listed_page : Int
  total_listed_docs : Int
  next_doc_index : Int
deriving DecidableEq, Repr

/-- The progress part of `initial_dataset_state`. -/
def initial_dataset_state : DatasetState :=
  { status := "running", listing_complete := false, last_listed_page := 0,
    total_listed_docs := 0, next_doc_index := 0 }

/-- `dataset_state.update(loaded_state)`: keys present in the loaded record
overwrite the initial ones. -/
def applyLoadedState (st : DatasetState) (s : LoadedState) : DatasetState :=
  { status := s.status.getD st.status,
    listing_complete := s.listing_complete.getD st.listing_complete,
    last_listed_page := s.last_listed_page.getD st.last_listed_page,
    total_listed_docs := s.total_listed_docs.getD st.total_listed_docs,
    next_doc_index := s.next_doc_index.getD st.next_doc_index }

/-! ## Archive Lister and Item Listing Cache
(`list_archive_docs_with_retries`, `append_archive_docs_cache`,
`load_archive_docs_cache`, resume region of `main`) -/

/-- Tag every row of a listing page with its page number
(`tagged["__archive_page"] = page`). -/
def tagPage {α : Type} (p : Nat) (rows : List α) : List (Nat × α) :=
  rows.map (fun r => (p, r))

/-- Embedding of the page loop of `list_archive_docs_with_retries` (retries on
HTTP 429 re-fetch the same page and do not change the collected result, so the
page oracle `pages` maps each page number to its final row list): pages are
fetched in increasing order; an empty page ends the listing before appending;
a short page ends it after appending. `fuel` bounds the recursion; every run
of the source terminates because some page is short, which the theorems
mirror by supplying sufficient fuel. -/
def list_archive_docs {α : Type} (pages : Nat → List α) (pageSize : Nat) :
    Nat → Nat → List (Nat × α) → List (Nat × α)
  | 0, _, docs => docs
  | fuel + 1, page, docs =>
    let rows := pages page
    if rows.isEmpty then docs
    else
      let docs2 := docs ++ tagPage page rows
      if rows.length < pageSize then docs2
      else list_archive_docs pages pageSize fuel (page + 1) docs2

/-- `page = max(1, start_page)` plus seed docs, as in
`list_archive_docs_with_retries`. -/
def list_archive_docs_with_retries {α : Type} (pages : Nat → List α) (pageSize : Nat)
    (fuel : Nat) (startPage : Nat) (seed : List (Nat × α)) : List (Nat × α) :=
  list_archive_docs pages pageSize fuel (max 1 startPage) seed

/-- The Item Listing Cache contents after pages `start, start+1, ...,
start+k-1` have each been appended by `append_archive_docs_cache` (one
`{page, doc}` line per tagged doc, in page order). -/
def entriesFrom {α : Type} (pages : Nat → List α) (start : Nat) : Nat → List (Nat × α)
  | 0 => []
  | k + 1 => tagPage start (pages start) ++ entriesFrom pages (start + 1) k

/-- The cache file after the run checkpointed listing pages `1..k`. -/
def cacheAfterPages {α : Type} (pages : Nat → List α) (k : Nat) : List (Nat × α) :=
  entriesFrom pages 1 k

/-- Embedding of `load_archive_docs_cache`: re-read every cached `{page, doc}`
line in order, keeping the page tag, and track the highest page seen. -/
def load_archive_docs_cache {α : Type} : List (Nat × α) → List (Nat × α) × Nat
  | [] => ([], 0)
  | e :: rest =>
    let r := load_archive_docs_cache rest
    (e :: r.1, max e.1 r.2)

/-- Embedding of the checkpoint-resume region of `main` (compatibility check,
cache reload/deletion, start-page computation). `cacheFile` is `some entries`
when the Item Listing Cache file exists. -/
structure ResumeSetup (α : Type) where
  state : DatasetState
  cached_docs : List (Nat × α)
  resume_start_page : Int
  cache_deleted : Bool
deriving DecidableEq, Repr

/-- The resume region of `main`: a compatible checkpoint is merged into the
fresh state and the Item Listing Cache is reloaded (listing will resume at
`cached_last_page + 1`); an incompatible or absent checkpoint leaves the fresh
state untouched, yields no cached docs, starts listing at page 1 and deletes
any existing cache file. -/
def resume_setup {α : Type} (loaded : Option LoadedState)
    (cacheFile : Option (List (Nat × α))) (a : WindowArgs) : ResumeSetup α :=
  match loaded with
  | some s =>
    if dataset_state_is_compatible (some s) a then
      let st0 := applyLoadedState initial_dataset_state s
      let lc := load_archive_docs_cache (cacheFile.getD [])
      let st := { st0 with
        last_listed_page := Int.ofNat lc.2,
        total_listed_docs := Int.ofNat lc.1.length,
        listing_complete := if lc.2 == 0 then false else st0.listing_complete,
        status := "running" }
      ⟨st, lc.1, Int.ofNat lc.2 + 1, false⟩
    else
      ⟨{ initial_dataset_state with status := "running" }, [], 1, cacheFile.isSome⟩
  | none =>
    ⟨{ initial_dataset_state with status := "running" }, [], 1, cacheFile.isSome⟩

/-! ## Sort Engine (`sort_monthly_csv`, `_cached_monthly_sort_classification`) -/

/-- Requested sort order, validated upfront by `sort_monthly_csv`
(`if sort_order not in {"ascending", "descending"}: raise`). -/
inductive SortOrder where
  | ascending
  | descending
deriving DecidableEq, Repr

/-- The string form of the order, as stored in the Sort Cache. -/
def SortOrder.str : SortOrder → String
  | .ascending => "ascending"
  | .descending => "descending"

/-- The inversion test against the previous parsed key:
`sort_key < previous_key` for ascending, `sort_key > previous_key` for
descending; no previous key means no inversion. -/
def invCheck {K : Type} [LinearOrder K] (order : SortOrder)
    (prev : Option K) (k : K) : Bool :=
  match prev with
  | none => false
  | some pk =>
    match order with
    | .ascending => decide (k < pk)
    | .descending => decide (pk < k)

/-- The row-scanning loop of `sort_monthly_csv`, rendered recursively: each
row either has a derivable sort key (`_csv_row_sort_key` returned a value) or
is unparsed. The loop accumulates parsed `(key, row)` pairs and unparsed rows
in file order, and an `already_sorted` flag that is falsified by a parsed row
following any unparsed row (`if saw_unparsed`) or by an inversion against the
previous parsed key (`sort_key < previous_key` for ascending, the reverse for
descending). Arguments `prev`/`sawUnp` are the loop state entering the
remaining rows. -/
def scanRows {K δ : Type} [LinearOrder K] (order : SortOrder) :
    Option K → Bool → List (Option K × δ) → List (K × δ) × List δ × Bool
  | _, _, [] => ([], [], true)
  | prev, _, (none, d) :: rest =>
    let r := scanRows order prev true rest
    (r.1, d :: r.2.1, r.2.2)
  | prev, sawUnp, (some k, d) :: rest =>
    let bad := sawUnp || invCheck order prev k
    let r := scanRows order (some k) sawUnp rest
    ((k, d) :: r.1, r.2.1, !bad && r.2.2)

/-- Stable insertion of one keyed row: keep earlier rows whose key must stay
before the key of the new row, so equal keys preserve original order. -/
def insertStable {K δ : Type} (ltb : K → K → Bool) (x : K × δ) :
    List (K × δ) → List (K × δ)
  | [] => [x]
  | y :: ys => if ltb y.1 x.1 then y :: insertStable ltb x ys else x :: y :: ys

/-- Stable sort by key, modelling the stable Python `sorted(..., key=...)`
(and `reverse=True` when given the flipped comparison). -/
def sortStable {K δ : Type} (ltb : K → K → Bool) : List (K × δ) → List (K × δ)
  | [] => []
  | x :: xs => insertStable ltb x (sortStable ltb xs)

/-- The strict comparison used by the rewrite: plain for ascending,
flipped for descending (`reverse=(sort_order == "descending")`). -/
def orderLtb {K : Type} [LinearOrder K] : SortOrder → K → K → Bool
  | .ascending, a, b => decide (a < b)
  | .descending, a, b => decide (b < a)

/-- Embedding of the classification core of `sort_monthly_csv` (the file is
given as its data rows, each paired with the sort key `_csv_row_sort_key`
derives for it, or `none` when underivable): no data rows at all is
`already`; data rows but no parsed row is `skipped`; an intact
`already_sorted` flag is `already`; otherwise parsed rows are stably
reordered, unparsed rows appended after them in original order, and the file
rewritten (`sorted`). The second component is the resulting file contents. -/
def sort_monthly_csv {K δ : Type} [LinearOrder K] (order : SortOrder)
    (rows : List (Option K × δ)) : String × List (Option K × δ) :=
  let scan := scanRows order none false rows
  if rows.isEmpty then ("already", rows)
  else if scan.1.isEmpty then ("skipped", rows)
  else if scan.2.2 then ("already", rows)
  else
    ("sorted",
      (sortStable (orderLtb order) scan.1).map (fun kd => ((some kd.1 : Option K), kd.2))
        ++ scan.2.1.map (fun d => ((none : Option K), d)))

/-- The keys of the parsed rows, in file order. -/
def parsedKeys {K δ : Type} (rows : List (Option K × δ)) : List K :=
  rows.filterMap Prod.fst

/-- The parsed `(key, row)` pairs, in file order. -/
def parsedPairs {K δ : Type} (rows : List (Option K × δ)) : List (K × δ) :=
  rows.filterMap (fun r =>
    match r.1 with
    | some k => some (k, r.2)
    | none => none)

/-- The unparsed rows, in file order. -/
def unparsedData {K δ : Type} (rows : List (Option K × δ)) : List δ :=
  rows.filterMap (fun r =>
    match r.1 with
    | none => some r.2
    | some _ => none)

/-- Parsed keys are monotonic in the requested direction, ties allowed
(continuing the file order breaks ties). -/
def keysMono {K : Type} [LinearOrder K] (order : SortOrder) (ks : List K) : Prop :=
  match order with
  | .ascending => List.Chain' (fun a b => a ≤ b) ks
  | .descending => List.Chain' (fun a b => b ≤ a) ks

/-- The monotonicity condition including the key last seen before the
remaining rows. -/
def keysChainFrom {K : Type} [LinearOrder K] (order : SortOrder)
    (prev : Option K) (ks : List K) : Prop :=
  match prev with
  | none => keysMono order ks
  | some pk => keysMono order (pk :: ks)

/-- No parsed row occurs after an unparsed row, i.e. moving unparsed rows to
the back repositions nothing. -/
def noSomeAfterNone {K δ : Type} : List (Option K × δ) → Bool
  | [] => true
  | (some _, _) :: rest => noSomeAfterNone rest
  | (none, _) :: rest => (parsedKeys rest).isEmpty

/-- The sort-cache file version constant. -/
def MONTHLY_SORT_CACHE_VERSION : Int := 1

/-- The Sort Cache record as read back by `_read_monthly_sort_cache`; each
field is `none` when the key is missing or (for the integers) `_cache_int`
fails. -/
structure SortCachePayload where
  version : Option Int
  sort_order : Option String
  sort_strategy : Option String
  classification : Option String
  size_bytes : Option Int
  mtime_ns : Option Int
deriving DecidableEq, Repr

/-- Embedding of `_cached_monthly_sort_classification`: the cached
classification is returned only when the version, sort order, sort strategy,
file size and file modification time all equal the current request, and the
classification itself is `sorted` or `skipped`. -/
def cached_monthly_sort_classification (cached : Option SortCachePayload)
    (sort_order sort_strategy : String) (size_bytes mtime_ns : Int) : Option String :=
  match cached with
  | none => none
  | some c =>
    if c.version ≠ some MONTHLY_SORT_CACHE_VERSION then none
    else if c.sort_order ≠ some sort_order then none
    else if c.sort_strategy ≠ some sort_strategy then none
    else if c.size_bytes ≠ some size_bytes then none
    else if c.mtime_ns ≠ some mtime_ns then none
    else
      let cls := c.classification.getD ""
      if cls = "sorted" ∨ cls = "skipped" then some cls else none

/-- The cache-consultation prologue of `sort_monthly_csv`: a cached `sorted`
short-circuits to `already`, a cached `skipped` to `skipped`; otherwise the
file is re-scanned. -/
def sort_monthly_csv_cached {K δ : Type} [LinearOrder K]
    (cached : Option SortCachePayload) (order : SortOrder) (strategy : String)
    (size_bytes mtime_ns : Int) (rows : List (Option K × δ)) :
    String × List (Option K × δ) :=
  match cached_monthly_sort_classification cached order.str strategy size_bytes mtime_ns with
  | some cls =>
    if cls = "sorted" then ("already", rows)
    else if cls = "skipped" then ("skipped", rows)
    else sort_monthly_csv order rows
  | none => sort_monthly_csv order rows

/-! ## Backfill Reconciler (`backfill_post_datetime.py`,
`fill_rows_by_source_fingerprint` and helpers) -/

/-- Python `str.lower()` (ASCII). -/
def pyLower (s : String) : String :=
  String.mk (s.toList.map Char.toLower)

/-- A CSV row as an ordered association of column name to cell value, as
produced by `csv.DictReader`. -/
abbrev CsvRow := List (String × String)

/-- Python `dict.get`: the value stored under a key. -/
def rowGet : CsvRow → String → Option String
  | [], _ => none
  | p :: rest, key => if p.1 == key then some p.2 else rowGet rest key

/-- Python `row[key] = value`: replace the entry for `key`, or add one. -/
def rowSet : CsvRow → String → String → CsvRow
  | [], key, value => [(key, value)]
  | p :: rest, key, value =>
    if p.1 == key then (p.1, value) :: rest else p :: rowSet rest key value

/-- `POST_DATETIME_COLUMN_ALIASES` from the downloader module. -/
def POST_DATETIME_COLUMN_ALIASES : List String :=
  ["postDateTime", "postDatetime", "PostingTime", "post_datetime"]

/-- Membership in `POST_DATETIME_ALIAS_LOWER` of an already-lowercased name. -/
def isPostAliasLower (s : String) : Bool :=
  (POST_DATETIME_COLUMN_ALIASES.map pyLower).contains s

/-- Embedding of `cleaned_csv_row_values`: strip each column name, drop empty
names and any postDateTime alias, keep the cell values. -/
def cleaned_csv_row_values (row : CsvRow) : CsvRow :=
  row.foldl (fun acc p =>
    let key_clean := pyStripS p.1
    if key_clean.isEmpty || isPostAliasLower (pyLower key_clean) then acc
    else acc ++ [(key_clean, p.2)]) []

/-- Embedding of `row_fingerprint`: the tuple of the stripped row values at
the key fields (missing or empty values become `""`). -/
def row_fingerprint (values : CsvRow) (key_fields : List String) : List String :=
  key_fields.map (fun f => pyStripS ((rowGet values f).getD ""))

/-- The reverse fingerprint index `source_fingerprints`: fingerprint to the
list of source postDatetimes, in observation order. -/
abbrev FpMap := List (List String × List String)

/-- `source_fingerprints.get(fp)`. -/
def fpGet : FpMap → List String → Option (List String)
  | [], _ => none
  | e :: rest, fp => if e.1 == fp then some e.2 else fpGet rest fp

/-- `source_fingerprints[fp].append(v)` on a `defaultdict(list)`. -/
def fpAppend : FpMap → List String → String → FpMap
  | [], fp, v => [(fp, [v])]
  | e :: rest, fp, v =>
    if e.1 == fp then (e.1, e.2 ++ [v]) :: rest else e :: fpAppend rest fp v

/-- Mutating the list stored under a fingerprint (the effect of `pop`). -/
def fpSet : FpMap → List String → List String → FpMap
  | [], _, _ => []
  | e :: rest, fp, vs =>
    if e.1 == fp then (e.1, vs) :: rest else e :: fpSet rest fp vs

/-- Python `list.pop()`: the last element and the remaining list. -/
def popLast (vs : List String) : Option (String × List String) :=
  match vs.reverse with
  | [] => none
  | v :: rest => some (v, rest.reverse)

/-- One doc of `doc_plan`: its resolved postDatetime and the parsed CSV rows
of its source payload (a doc whose source text is absent, blank or headerless
contributes no rows, matching the `continue` guards of the source loop). -/
structure DocPlanEntry where
  post_datetime : String
  sourceRows : List CsvRow
deriving DecidableEq, Repr

/-- The fingerprint-building loop of `fill_rows_by_source_fingerprint`: every
source row of every planned doc is cleaned, fingerprinted over the key fields
and the postDatetime of its doc appended under that fingerprint. -/
def source_fingerprints (key_fields : List String)
    (doc_plan : List DocPlanEntry) : FpMap :=
  doc_plan.foldl (fun m e =>
    e.sourceRows.foldl (fun m2 srow =>
      fpAppend m2 (row_fingerprint (cleaned_csv_row_values srow) key_fields)
        e.post_datetime) m) []

/-- `sum(1 for v in source_fingerprints.values() if len(v) > 1)`. -/
def countCollisions (m : FpMap) : Nat :=
  (m.filter (fun e => decide (1 < e.2.length))).length

/-- The set of colliding fingerprints marked ambiguous in overwrite mode. -/
def ambiguousFps (m : FpMap) : List (List String) :=
  (m.filter (fun e => decide (1 < e.2.length))).map (fun e => e.1)

/-- A period-file cell that is blank (`if current: continue` not taken). -/
def rowBlank (post_field : String) (row : CsvRow) : Prop :=
  (pyStripS ((rowGet row post_field).getD "")).isEmpty = true

instance (post_field : String) (row : CsvRow) : Decidable (rowBlank post_field row) := by
  unfold rowBlank; infer_instance

/-- A fingerprint observed on more than one source row. -/
def fpColliding (m : FpMap) (fp : List String) : Prop :=
  ∃ vs, fpGet m fp = some vs ∧ 1 < vs.length

/-- One iteration of the fill loop of `fill_rows_by_source_fingerprint` on a
single period row: a nonblank cell is untouched; a blank cell whose
fingerprint was marked ambiguous is skipped (counted); otherwise one source
value is popped for that fingerprint and, when nonempty, written into the
cell. Returns the resulting row, the updated fingerprint map and the
increments to `cells_filled` and `ambiguous_rows_skipped`. -/
def fillRowStep (post_field : String) (key_fields : List String)
    (ambiguous : List (List String)) (m : FpMap) (row : CsvRow) :
    CsvRow × FpMap × Nat × Nat :=
  if ¬(pyStripS ((rowGet row post_field).getD "")).isEmpty then (row, m, 0, 0)
  else if row_fingerprint row key_fields ∈ ambiguous then (row, m, 0, 1)
  else
    match fpGet m (row_fingerprint row key_fields) with
    | none => (row, m, 0, 0)
    | some vs =>
      match popLast vs with
      | none => (row, m, 0, 0)
      | some (v, remaining) =>
        if ¬v.isEmpty then
          (rowSet row post_field v, fpSet m (row_fingerprint row key_fields) remaining, 1, 0)
        else (row, fpSet m (row_fingerprint row key_fields) remaining, 0, 0)

/-- The fill loop of `fill_rows_by_source_fingerprint` over all period rows,
threading the fingerprint map and accumulating the counters. -/
def fillLoop (post_field : String) (key_fields : List String)
    (ambiguous : List (List String)) :
    FpMap → List CsvRow → List CsvRow × FpMap × Nat × Nat
  | m, [] => ([], m, 0, 0)
  | m, row :: rest =>
    let s := fillRowStep post_field key_fields ambiguous m row
    let r := fillLoop post_field key_fields ambiguous s.2.1 rest
    (s.1 :: r.1, r.2.1, s.2.2.1 + r.2.2.1, s.2.2.2 + r.2.2.2)

/-- The observable result of `fill_rows_by_source_fingerprint`: final rows,
`cells_filled`, the printed collision signal severity if any, and the count
of ambiguous rows skipped. -/
structure FillResult where
  rows : List CsvRow
  cells_filled : Nat
  collision_signal : Option String
  ambiguous_rows_skipped : Nat
deriving DecidableEq, Repr

/-- Embedding of `fill_rows_by_source_fingerprint`: build the fingerprint
index, emit a `WARN` (add-missing) or `ERROR` (overwrite) signal when any
fingerprint collides, mark colliding fingerprints ambiguous only in overwrite
mode, then run the fill loop over the period rows. -/
def fill_rows_by_source_fingerprint (rows : List CsvRow) (key_fields : List String)
    (post_field : String) (doc_plan : List DocPlanEntry)
    (overwrite_mode : Bool) : FillResult :=
  let m := source_fingerprints key_fields doc_plan
  let collision_count := countCollisions m
  let signal : Option String :=
    if collision_count ≠ 0 then some (if overwrite_mode then "ERROR" else "WARN")
    else none
  let ambiguous : List (List String) :=
    if collision_count ≠ 0 ∧ overwrite_mode = true then ambiguousFps m else []
  let r := fillLoop post_field key_fields ambiguous m rows
  ⟨r.1, r.2.2.1, signal, r.2.2.2⟩

/-- Total number of source values remaining in the fingerprint index. -/
def fpTotal (m : FpMap) : Nat :=
  (m.map (fun e => e.2.length)).sum

/-! ## Theorems -/

/-- C7: a parsed hour-ending value is either hour 24 normalized to the last
minute (23, 59) of the same calendar day, or an on-the-hour value at most 23;
the combined timestamp keeps the calendar day of the row, a normalized hour-24 row
sorts after every other same-day hour-ending row, and never sorts past any row
of a later calendar day. -/
theorem c7_hour_ending_24 (raw : String) (hm : Nat × Nat)
    (hparse : parse_hour_ending raw = some hm) :
    parse_hour_ending "24:00" = some (23, 59)
    ∧ (hm = (23, 59) ∨ (hm.1 ≤ 23 ∧ hm.2 = 0))
    ∧ (∀ d : PyDateTime, (replaceTime d hm).day = d.day)
    ∧ (∀ d : PyDateTime, ∀ other : Nat × Nat, other.1 ≤ 23 → other.2 = 0 →
        PyDateTime.Lt (replaceTime d other) (replaceTime d (23, 59)))
    ∧ (∀ d e : PyDateTime, d.day < e.day → ∀ hm2 : Nat × Nat,
        PyDateTime.Lt (replaceTime d hm) (replaceTime e hm2)) := by
  refine ⟨by decide, ?_, fun d => rfl, ?_, ?_⟩
  · have h2 : ∀ left : List Char, hourFromDigits left = some hm →
        hm = (23, 59) ∨ (hm.1 ≤ 23 ∧ hm.2 = 0) := by
      intro left h
      simp only [hourFromDigits] at h
      split at h
      · exact absurd h (by simp)
      · split at h
        · exact absurd h (by simp)
        · split at h
          · left; exact (Option.some_inj.mp h).symm
          · right
            rename_i hgt heq
            have hhm := (Option.some_inj.mp h).symm
            subst hhm
            exact ⟨by omega, rfl⟩
    simp only [parse_hour_ending] at hparse
    split at hparse
    · exact absurd hparse (by simp)
    · unfold parse_hour_ending_cached at hparse
      exact h2 _ hparse
  · intro d other h1 h2
    dsimp only [PyDateTime.Lt, replaceTime]
    omega
  · intro d e hde hm2
    dsimp only [PyDateTime.Lt, replaceTime]
    omega

/-- Witness for C7 at raw hour-ending "24:00". -/
theorem c7_hour_ending_24_witness :
    parse_hour_ending "24:00" = some (23, 59)
    ∧ PyDateTime.Lt (replaceTime ⟨5, 0, 0⟩ (23, 0)) (replaceTime ⟨5, 0, 0⟩ (23, 59)) := by
  have h := c7_hour_ending_24 "24:00" (23, 59) (by decide)
  exact ⟨h.1, h.2.2.2.1 ⟨5, 0, 0⟩ (23, 0) (by decide) rfl⟩

/-- C8: `download_doc` leaves the destination file unchanged on any failing
run (exhausted candidates, non-retryable HTTP error, or network error), and
when it succeeds the destination holds the complete body of one of the
candidates — never a partial write. -/
theorem c8_download_atomic (cands : List CandidateOutcome) (fs : DownloadFS) :
    ((download_doc cands fs).2 = false → (download_doc cands fs).1.dest = fs.dest)
    ∧ ((download_doc cands fs).2 = true →
        ∃ body, CandidateOutcome.full body ∈ cands ∧ (download_doc cands fs).1.dest = some body) := by
  induction cands generalizing fs with
  | nil => exact ⟨fun _ => rfl, fun h => by simp [download_doc] at h⟩
  | cons c rest ih =>
    cases c with
    | full body =>
      refine ⟨fun h => ?_, fun _ => ⟨body, by simp [download_doc]⟩⟩
      simp [download_doc] at h
    | httpError status written =>
      by_cases hretry : status ∈ RETRYABLE_STATUSES ∧ rest ≠ []
      · have hd : download_doc (CandidateOutcome.httpError status written :: rest) fs
            = download_doc rest { fs with tmp := some written } := by
          simp [download_doc, hretry]
        rw [hd]
        refine ⟨fun h => (ih _).1 h, fun h => ?_⟩
        obtain ⟨body, hmem, hdest⟩ := (ih _).2 h
        exact ⟨body, List.mem_cons_of_mem _ hmem, hdest⟩
      · have hd : download_doc (CandidateOutcome.httpError status written :: rest) fs
            = ({ fs with tmp := some written }, false) := by
          simp only [download_doc]
          rw [if_neg hretry]
        rw [hd]
        exact ⟨fun _ => rfl, fun h => by simp at h⟩
    | netError written =>
      exact ⟨fun _ => rfl, fun h => by simp [download_doc] at h⟩

/-- Witness for C8: a retryable 404 followed by a network failure leaves the
destination untouched; a full success installs the body. -/
theorem c8_download_atomic_witness :
    (download_doc [CandidateOutcome.httpError 404 [1], CandidateOutcome.netError [2]]
        ⟨some [9], none⟩).1.dest = some [9]
    ∧ ∃ body, CandidateOutcome.full body ∈
        [CandidateOutcome.httpError 404 [1], CandidateOutcome.full [7]]
        ∧ (download_doc [CandidateOutcome.httpError 404 [1], CandidateOutcome.full [7]]
            ⟨some [9], none⟩).1.dest = some body := by
  constructor
  · exact (c8_download_atomic [CandidateOutcome.httpError 404 [1], CandidateOutcome.netError [2]]
      ⟨some [9], none⟩).1 (by decide)
  · exact (c8_download_atomic [CandidateOutcome.httpError 404 [1], CandidateOutcome.full [7]]
      ⟨some [9], none⟩).2 (by decide)

/-- C10: `maybe_extract_zip` validates every member before extraction: if any
member resolves outside the parent directory of the archive the call raises and
extracts nothing, and extraction of the members happens exactly when every
member resolves inside the target directory. -/
theorem c10_zip_traversal_guard (parentDir : List String) (members : List (List String)) :
    ((∃ m ∈ members, memberInside (resolvePath parentDir) m = false) →
      maybe_extract_zip true parentDir members = .error "ZIP path traversal rejected")
    ∧ ((∀ m ∈ members, memberInside (resolvePath parentDir) m = true) →
      maybe_extract_zip true parentDir members = .ok members) := by
  have hcheck : ∀ ms : List (List String),
      ((∃ m ∈ ms, memberInside (resolvePath parentDir) m = false) →
        checkMembers (resolvePath parentDir) ms = .error "ZIP path traversal rejected")
      ∧ ((∀ m ∈ ms, memberInside (resolvePath parentDir) m = true) →
        checkMembers (resolvePath parentDir) ms = .ok ()) := by
    intro ms
    induction ms with
    | nil =>
      refine ⟨fun h => ?_, fun _ => rfl⟩
      obtain ⟨m, hm, _⟩ := h
      exact absurd hm (List.not_mem_nil m)
    | cons m rest ih =>
      constructor
      · rintro ⟨x, hx, hbad⟩
        by_cases hm : memberInside (resolvePath parentDir) m = true
        · have hx2 : x ∈ rest := by
            rcases List.mem_cons.mp hx with hx | hx
            · subst hx; rw [hm] at hbad; exact absurd hbad (by simp)
            · exact hx
          have := ih.1 ⟨x, hx2, hbad⟩
          simp only [checkMembers, hm, if_true]
          exact this
        · have hm2 : memberInside (resolvePath parentDir) m = false :=
            Bool.eq_false_iff.mpr hm
          simp [checkMembers, hm2]
      · intro hall
        have hm := hall m (List.mem_cons_self m rest)
        have := ih.2 (fun x hx => hall x (List.mem_cons_of_mem _ hx))
        simp only [checkMembers, hm, if_true]
        exact this
  constructor
  · intro h
    have hc := (hcheck members).1 h
    simp [maybe_extract_zip, hc]
  · intro h
    have hc := (hcheck members).2 h
    simp [maybe_extract_zip, hc]

/-- Witness for C10: the member `../evil` escapes `/data/out` and is rejected;
the member `sub/file.csv` stays inside and is extracted. -/
theorem c10_zip_traversal_guard_witness :
    maybe_extract_zip true ["data", "out"] [["..", "evil"]]
      = .error "ZIP path traversal rejected"
    ∧ maybe_extract_zip true ["data", "out"] [["sub", "file.csv"]]
      = .ok [["sub", "file.csv"]] := by
  constructor
  · exact (c10_zip_traversal_guard ["data", "out"] [["..", "evil"]]).1
      ⟨["..", "evil"], by decide, by decide⟩
  · exact (c10_zip_traversal_guard ["data", "out"] [["sub", "file.csv"]]).2
      (by decide)

/-- C3: merging is idempotent. An item identifier already recorded in the
Merge Marker is skipped before any fetch or append (`processDoc` returns the
state unchanged with no fetch), and processing any identifier a second time
with the same payload is a no-op, so the monthly CSV never gains duplicated
rows for that item. -/
theorem c3_merge_idempotent (st : ConsolidationState) (docId : String)
    (payloadRows : List String) (halready : docId ∈ st.marker) :
    processDoc st docId payloadRows = (st, false)
    ∧ ∀ st2 : ConsolidationState, ∀ rows2 : List String,
        processDoc (processDoc st2 docId rows2).1 docId rows2
          = ((processDoc st2 docId rows2).1, false) := by
  constructor
  · simp [processDoc, halready]
  · intro st2 rows2
    by_cases hmem : docId ∈ st2.marker
    · simp [processDoc, hmem]
    · have h1 : (processDoc st2 docId rows2).1
          = { marker := st2.marker ++ [docId], monthly := st2.monthly ++ rows2 } := by
        simp [processDoc, hmem]
      rw [h1]
      have h2 : docId ∈ st2.marker ++ [docId] := by simp
      simp [processDoc, h2]

/-- Witness for C3 with a one-item marker. -/
theorem c3_merge_idempotent_witness :
    processDoc ⟨["doc1"], ["r1"]⟩ "doc1" ["r1"] = (⟨["doc1"], ["r1"]⟩, false) := by
  exact (c3_merge_idempotent ⟨["doc1"], ["r1"]⟩ "doc1" ["r1"] (by decide)).1

/-- C4: a loaded checkpoint differing from the current run in any one of the
seven Dataset Window fields is incompatible, and the resume region then
behaves exactly as if no checkpoint existed — fresh state, no cached docs,
listing from page 1 — and deletes the prior Item Listing Cache file when it
exists. -/
theorem c4_window_compat {α : Type} (s : LoadedState)
    (cacheFile : Option (List (Nat × α))) (a : WindowArgs)
    (hdiff : ¬(s.dataset_id.getD "" = a.dataset_id
      ∧ s.window_from.getD "" = a.window_from
      ∧ s.window_to.getD "" = a.window_to
      ∧ s.page_size.getD (-1) = a.page_size
      ∧ s.download_order.getD "" = a.download_order
      ∧ s.max_docs_per_dataset.getD (-1) = a.max_docs_per_dataset
      ∧ s.archive_url.getD "" = a.archive_url)) :
    dataset_state_is_compatible (some s) a = false
    ∧ resume_setup (some s) cacheFile a = resume_setup none cacheFile a
    ∧ (resume_setup (some s) cacheFile a).cache_deleted = cacheFile.isSome := by
  have hc : dataset_state_is_compatible (some s) a = false := by
    rw [Bool.eq_false_iff]
    intro h
    apply hdiff
    simpa [dataset_state_is_compatible, Bool.and_eq_true, beq_iff_eq, and_assoc] using h
  refine ⟨hc, ?_, ?_⟩
  · simp [resume_setup, hc]
  · simp [resume_setup, hc]

/-- Witness for C4: a checkpoint equal in six fields but listing a different
page size is discarded and the cache file (present) is deleted. -/
theorem c4_window_compat_witness :
    dataset_state_is_compatible
      (some ⟨some "np4-183-cd", some "2024-01-01", some "2024-01-31", some 500,
        some "oldest-first", some 0, some "https://api.example/archive",
        some "running", some false, some 3, some 120, some 40⟩)
      ⟨"np4-183-cd", "2024-01-01", "2024-01-31", 1000, "oldest-first", 0,
        "https://api.example/archive"⟩ = false
    ∧ (resume_setup
        (some ⟨some "np4-183-cd", some "2024-01-01", some "2024-01-31", some 500,
          some "oldest-first", some 0, some "https://api.example/archive",
          some "running", some false, some 3, some 120, some 40⟩)
        (some [(1, "docA")])
        ⟨"np4-183-cd", "2024-01-01", "2024-01-31", 1000, "oldest-first", 0,
          "https://api.example/archive"⟩).cache_deleted = true := by
  have h := c4_window_compat
    (α := String)
    ⟨some "np4-183-cd", some "2024-01-01", some "2024-01-31", some 500,
      some "oldest-first", some 0, some "https://api.example/archive",
      some "running", some false, some 3, some 120, some 40⟩
    (some [(1, "docA")])
    ⟨"np4-183-cd", "2024-01-01", "2024-01-31", 1000, "oldest-first", 0,
      "https://api.example/archive"⟩
    (by decide)
  exact ⟨h.1, h.2.2⟩

/-- Helper: re-reading the Item Listing Cache yields exactly the cached tagged
docs, in order. -/
theorem load_archive_docs_cache_fst {α : Type} (entries : List (Nat × α)) :
    (load_archive_docs_cache entries).1 = entries := by
  induction entries with
  | nil => rfl
  | cons e rest ih => simp [load_archive_docs_cache, ih]

/-- Helper: the highest-page computation distributes over cache concatenation. -/
theorem load_archive_docs_cache_snd_append {α : Type} (xs ys : List (Nat × α)) :
    (load_archive_docs_cache (xs ++ ys)).2
      = max (load_archive_docs_cache xs).2 (load_archive_docs_cache ys).2 := by
  induction xs with
  | nil => simp [load_archive_docs_cache]
  | cons e rest ih => simp [load_archive_docs_cache, ih, Nat.max_assoc]

/-- Helper: the highest page among the entries of one cached page is that page. -/
theorem load_archive_docs_cache_snd_tag {α : Type} (p : Nat) (rows : List α) :
    (load_archive_docs_cache (tagPage p rows)).2 = if rows.isEmpty then 0 else p := by
  induction rows with
  | nil => rfl
  | cons x xs ih =>
    simp only [tagPage] at ih ⊢
    simp only [List.map_cons, load_archive_docs_cache, ih]
    cases xs with
    | nil => simp
    | cons y ys => simp

/-- Helper: the highest page in the cache after pages `start..start+k-1`. -/
theorem load_entriesFrom_snd {α : Type} (pages : Nat → List α) :
    ∀ k start, 0 < k → (∀ p, start ≤ p → p < start + k → pages p ≠ []) →
    (load_archive_docs_cache (entriesFrom pages start k)).2 = start + k - 1 := by
  intro k
  induction k with
  | zero => intro start h; omega
  | succ k ih =>
    intro start hpos hne
    rw [entriesFrom, load_archive_docs_cache_snd_append, load_archive_docs_cache_snd_tag]
    have h0 : (pages start).isEmpty = false := by
      have hs := hne start le_rfl (by omega)
      cases hp : pages start with
      | nil => exact absurd hp hs
      | cons z zs => rfl
    rw [h0]
    rcases Nat.eq_zero_or_pos k with hk | hk
    · subst hk
      simp [entriesFrom, load_archive_docs_cache]
    · rw [ih (start + 1) hk (fun p h1 h2 => hne p (by omega) (by omega))]
      simp only [Bool.false_eq_true, if_false]
      omega

/-- Helper: a full page advances the listing loop exactly one page. -/
theorem list_archive_docs_step {α : Type} (pages : Nat → List α) (pageSize fuel page : Nat)
    (acc : List (Nat × α)) (hpos : 0 < pageSize) (hfull : (pages page).length = pageSize) :
    list_archive_docs pages pageSize (fuel + 1) page acc
      = list_archive_docs pages pageSize fuel (page + 1) (acc ++ tagPage page (pages page)) := by
  have h1 : (pages page).isEmpty = false := by
    cases hp : pages page with
    | nil => rw [hp] at hfull; simp at hfull; omega
    | cons x xs => rfl
  have h2 : ¬((pages page).length < pageSize) := by rw [hfull]; omega
  conv_lhs => rw [list_archive_docs]
  simp only [h1, Bool.false_eq_true, if_false, h2]

/-- Helper: listing `k` full pages starting at `page` is the same as seeding
the loop with the cache entries of those pages and starting `k` pages later. -/
theorem list_archive_docs_shift {α : Type} (pages : Nat → List α) (pageSize : Nat)
    (hpos : 0 < pageSize) :
    ∀ k page fuel (acc : List (Nat × α)),
      (∀ p, page ≤ p → p < page + k → (pages p).length = pageSize) →
      list_archive_docs pages pageSize (fuel + k) page acc
        = list_archive_docs pages pageSize fuel (page + k) (acc ++ entriesFrom pages page k) := by
  intro k
  induction k with
  | zero => intro page fuel acc h; simp [entriesFrom]
  | succ k ih =>
    intro page fuel acc h
    have hfull : (pages page).length = pageSize := h page le_rfl (by omega)
    have hstep : fuel + (k + 1) = (fuel + k) + 1 := by omega
    rw [hstep, list_archive_docs_step pages pageSize (fuel + k) page acc hpos hfull,
      ih (page + 1) fuel (acc ++ tagPage page (pages page))
        (fun p h1 h2 => h p (by omega) (by omega)),
      entriesFrom]
    have hpage : page + 1 + k = page + (k + 1) := by omega
    rw [hpage, List.append_assoc]

/-- Helper: a page past the end of the data (empty response) stops the
listing immediately, keeping the accumulated docs. -/
theorem list_archive_docs_empty_page {α : Type} (pages : Nat → List α) (pageSize : Nat)
    (fuel page : Nat) (acc : List (Nat × α)) (hemp : pages page = []) :
    list_archive_docs pages pageSize fuel page acc = acc := by
  cases fuel with
  | zero => rfl
  | succ f =>
    have h1 : (pages page).isEmpty = true := by rw [hemp]; rfl
    conv_lhs => rw [list_archive_docs]
    simp only [h1, if_true]

/-- Helper: a nonempty page shorter than the page size ends the listing right
after being appended. -/
theorem list_archive_docs_short_stop {α : Type} (pages : Nat → List α) (pageSize : Nat)
    (fuel page : Nat) (acc : List (Nat × α))
    (hne : pages page ≠ []) (hshort : (pages page).length < pageSize) :
    list_archive_docs pages pageSize (fuel + 1) page acc
      = acc ++ tagPage page (pages page) := by
  have h1 : (pages page).isEmpty = false := by
    cases hp : pages page with
    | nil => exact absurd hp hne
    | cons x xs => rfl
  conv_lhs => rw [list_archive_docs]
  simp only [h1, Bool.false_eq_true, if_false, hshort, if_true]

/-- Helper: the cache entries of one more listed page extend the cache at the
end. -/
theorem entriesFrom_snoc {α : Type} (pages : Nat → List α) :
    ∀ (k start : Nat),
      entriesFrom pages start (k + 1)
        = entriesFrom pages start k ++ tagPage (start + k) (pages (start + k)) := by
  intro k
  induction k with
  | zero => intro start; simp [entriesFrom]
  | succ k ih =>
    intro start
    rw [entriesFrom, ih (start + 1)]
    conv_rhs => rw [entriesFrom]
    rw [List.append_assoc]
    have hs : start + 1 + k = start + (k + 1) := by omega
    rw [hs]

/-- Helper: the item-processing fold splits at any index — processing a
prefix, persisting the consolidation state, and continuing over the rest is
the same as processing everything in one run. -/
theorem processDocs_append (st : ConsolidationState)
    (xs ys : List (String × List String)) :
    processDocs st (xs ++ ys) = processDocs (processDocs st xs) ys := by
  induction xs generalizing st with
  | nil => rfl
  | cons d rest ih =>
    simp only [List.cons_append, processDocs]
    exact ih _

/-- C2: crash/restart equivalence of the pipeline for one Dataset Window.
(1) After a run checkpointed listing pages `1..k` (full pages, listing still
in progress), reloading the Item Listing Cache returns exactly the tagged
items of those pages with highest page `k` (no new listing call for them),
the restart resumes listing at page `k+1`, and the resumed listing produces
exactly the item list of an uninterrupted run. (2) Interrupting instead after
any processed item — the period files and Merge Markers (the consolidation
state) persisting on disk — and resuming the item loop at the checkpointed
index `i` over the same ordered docs yields exactly the final consolidated
state of the uninterrupted run, so the final consolidated monthly CSV files
are byte-identical. (3) The same listing equivalence holds for a crash after
checkpointing the final, short page `k+1`: the restart requests page `k+2`,
finds it empty, and keeps exactly the cached items. -/
theorem c2_resume_listing_equiv {α : Type} (pages : Nat → List α) (pageSize k fuel : Nat)
    (hpos : 0 < pageSize)
    (hfull : ∀ p, 1 ≤ p → p ≤ k → (pages p).length = pageSize) :
    (load_archive_docs_cache (cacheAfterPages pages k)).1 = cacheAfterPages pages k
    ∧ (load_archive_docs_cache (cacheAfterPages pages k)).2 = k
    ∧ list_archive_docs_with_retries pages pageSize (fuel + k) 1 []
        = list_archive_docs_with_retries pages pageSize fuel
            ((load_archive_docs_cache (cacheAfterPages pages k)).2 + 1)
            (load_archive_docs_cache (cacheAfterPages pages k)).1
    ∧ (∀ (init : ConsolidationState) (parse : Nat × α → String × List String) (i : Nat),
        processDocs init
            ((list_archive_docs_with_retries pages pageSize (fuel + k) 1 []).map parse)
          = processDocs
              (processDocs init
                (((list_archive_docs_with_retries pages pageSize fuel
                      ((load_archive_docs_cache (cacheAfterPages pages k)).2 + 1)
                      (load_archive_docs_cache (cacheAfterPages pages k)).1).map parse).take i))
              (((list_archive_docs_with_retries pages pageSize fuel
                    ((load_archive_docs_cache (cacheAfterPages pages k)).2 + 1)
                    (load_archive_docs_cache (cacheAfterPages pages k)).1).map parse).drop i))
    ∧ (∀ fuel2 : Nat, pages (k + 1) ≠ [] → (pages (k + 1)).length < pageSize →
        pages (k + 2) = [] →
        (load_archive_docs_cache (cacheAfterPages pages (k + 1))).2 = k + 1
        ∧ list_archive_docs_with_retries pages pageSize (fuel2 + (k + 1)) 1 []
            = list_archive_docs_with_retries pages pageSize fuel2
                ((load_archive_docs_cache (cacheAfterPages pages (k + 1))).2 + 1)
                (load_archive_docs_cache (cacheAfterPages pages (k + 1))).1) := by
  have hsnd : (load_archive_docs_cache (cacheAfterPages pages k)).2 = k := by
    rcases Nat.eq_zero_or_pos k with hk | hk
    · subst hk; rfl
    · have := load_entriesFrom_snd pages k 1 hk
        (fun p h1 h2 => by
          have hlen := hfull p h1 (by omega)
          intro hnil
          rw [hnil] at hlen
          simp at hlen
          omega)
      rw [cacheAfterPages, this]
      omega
  have hfst := load_archive_docs_cache_fst (cacheAfterPages pages k)
  have hlist : list_archive_docs_with_retries pages pageSize (fuel + k) 1 []
      = list_archive_docs_with_retries pages pageSize fuel
          ((load_archive_docs_cache (cacheAfterPages pages k)).2 + 1)
          (load_archive_docs_cache (cacheAfterPages pages k)).1 := by
    rw [hsnd, hfst]
    unfold list_archive_docs_with_retries
    have hmax1 : max 1 1 = 1 := rfl
    have hmaxk : max 1 (k + 1) = k + 1 := by omega
    rw [hmax1, hmaxk]
    have := list_archive_docs_shift pages pageSize hpos k 1 fuel []
      (fun p h1 h2 => hfull p h1 (by omega))
    rw [this]
    have h1k : 1 + k = k + 1 := by omega
    rw [h1k]
    rfl
  have hitem : ∀ (init : ConsolidationState) (parse : Nat × α → String × List String)
      (i : Nat),
      processDocs init
          ((list_archive_docs_with_retries pages pageSize (fuel + k) 1 []).map parse)
        = processDocs
            (processDocs init
              (((list_archive_docs_with_retries pages pageSize fuel
                    ((load_archive_docs_cache (cacheAfterPages pages k)).2 + 1)
                    (load_archive_docs_cache (cacheAfterPages pages k)).1).map parse).take i))
            (((list_archive_docs_with_retries pages pageSize fuel
                  ((load_archive_docs_cache (cacheAfterPages pages k)).2 + 1)
                  (load_archive_docs_cache (cacheAfterPages pages k)).1).map parse).drop i) := by
    intro init parse i
    rw [hlist]
    have hsplit := processDocs_append init
      (((list_archive_docs_with_retries pages pageSize fuel
          ((load_archive_docs_cache (cacheAfterPages pages k)).2 + 1)
          (load_archive_docs_cache (cacheAfterPages pages k)).1).map parse).take i)
      (((list_archive_docs_with_retries pages pageSize fuel
          ((load_archive_docs_cache (cacheAfterPages pages k)).2 + 1)
          (load_archive_docs_cache (cacheAfterPages pages k)).1).map parse).drop i)
    rw [List.take_append_drop] at hsplit
    exact hsplit
  refine ⟨hfst, hsnd, hlist, hitem, ?_⟩
  intro fuel2 hne hsh hemp
  have hne_all : ∀ p, 1 ≤ p → p < 1 + (k + 1) → pages p ≠ [] := by
    intro p h1 h2
    by_cases hpk : p ≤ k
    · have hlen := hfull p h1 hpk
      intro hnil
      rw [hnil] at hlen
      simp at hlen
      omega
    · have hp : p = k + 1 := by omega
      rw [hp]
      exact hne
  have hsnd2 : (load_archive_docs_cache (cacheAfterPages pages (k + 1))).2 = k + 1 := by
    have := load_entriesFrom_snd pages (k + 1) 1 (by omega) hne_all
    rw [cacheAfterPages, this]
    omega
  refine ⟨hsnd2, ?_⟩
  rw [hsnd2, load_archive_docs_cache_fst]
  unfold list_archive_docs_with_retries
  have hmax1 : max 1 1 = 1 := rfl
  have hmaxk : max 1 (k + 1 + 1) = k + 2 := by omega
  rw [hmax1, hmaxk]
  have hf : fuel2 + (k + 1) = (fuel2 + 1) + k := by omega
  rw [hf, list_archive_docs_shift pages pageSize hpos k 1 (fuel2 + 1) []
    (fun p h1 h2 => hfull p h1 (by omega))]
  have h1k : 1 + k = k + 1 := by omega
  rw [h1k, list_archive_docs_short_stop pages pageSize fuel2 (k + 1) _ hne hsh,
    list_archive_docs_empty_page pages pageSize fuel2 (k + 2) _ hemp, cacheAfterPages,
    entriesFrom_snoc pages k 1, h1k]
  simp

/-- Witness for C2: page size 2, page 1 full (items a, b), page 2 the short
final page (item c). Crash after checkpointing page 1: the restart reloads
both cached items and resumes at page 2, and a crash after processing item 1
resumes the consolidation fold at index 1 with the same final state; crash
after checkpointing short page 2: the restart finds page 3 empty and keeps the
cached items. -/
theorem c2_resume_listing_equiv_witness :
    (load_archive_docs_cache (cacheAfterPages
        (fun p => if p = 1 then ["a", "b"] else if p = 2 then ["c"] else []) 1)).2 = 1
    ∧ list_archive_docs_with_retries
        (fun p => if p = 1 then ["a", "b"] else if p = 2 then ["c"] else []) 2 (3 + 1) 1 []
      = list_archive_docs_with_retries
          (fun p => if p = 1 then ["a", "b"] else if p = 2 then ["c"] else []) 2 3
          ((load_archive_docs_cache (cacheAfterPages
              (fun p => if p = 1 then ["a", "b"] else if p = 2 then ["c"] else []) 1)).2 + 1)
          (load_archive_docs_cache (cacheAfterPages
              (fun p => if p = 1 then ["a", "b"] else if p = 2 then ["c"] else []) 1)).1
    ∧ processDocs ⟨[], []⟩
        ((list_archive_docs_with_retries
            (fun p => if p = 1 then ["a", "b"] else if p = 2 then ["c"] else []) 2 (3 + 1) 1
            []).map (fun pd => (pd.2, [pd.2])))
      = processDocs
          (processDocs ⟨[], []⟩
            (((list_archive_docs_with_retries
                  (fun p => if p = 1 then ["a", "b"] else if p = 2 then ["c"] else []) 2 3
                  ((load_archive_docs_cache (cacheAfterPages
                      (fun p => if p = 1 then ["a", "b"] else if p = 2 then ["c"] else [])
                      1)).2 + 1)
                  (load_archive_docs_cache (cacheAfterPages
                      (fun p => if p = 1 then ["a", "b"] else if p = 2 then ["c"] else [])
                      1)).1).map (fun pd => (pd.2, [pd.2]))).take 1))
          (((list_archive_docs_with_retries
                (fun p => if p = 1 then ["a", "b"] else if p = 2 then ["c"] else []) 2 3
                ((load_archive_docs_cache (cacheAfterPages
                    (fun p => if p = 1 then ["a", "b"] else if p = 2 then ["c"] else [])
                    1)).2 + 1)
                (load_archive_docs_cache (cacheAfterPages
                    (fun p => if p = 1 then ["a", "b"] else if p = 2 then ["c"] else [])
                    1)).1).map (fun pd => (pd.2, [pd.2]))).drop 1)
    ∧ list_archive_docs_with_retries
        (fun p => if p = 1 then ["a", "b"] else if p = 2 then ["c"] else []) 2 (3 + (1 + 1))
        1 []
      = list_archive_docs_with_retries
          (fun p => if p = 1 then ["a", "b"] else if p = 2 then ["c"] else []) 2 3
          ((load_archive_docs_cache (cacheAfterPages
              (fun p => if p = 1 then ["a", "b"] else if p = 2 then ["c"] else []) 2)).2 + 1)
          (load_archive_docs_cache (cacheAfterPages
              (fun p => if p = 1 then ["a", "b"] else if p = 2 then ["c"] else []) 2)).1 := by
  have h := c2_resume_listing_equiv
    (fun p => if p = 1 then ["a", "b"] else if p = 2 then ["c"] else []) 2 1 3
    (by decide)
    (fun p h1 h2 => by
      have hp : p = 1 := by omega
      subst hp
      rfl)
  exact ⟨h.2.1, h.2.2.1, h.2.2.2.1 ⟨[], []⟩ (fun pd => (pd.2, [pd.2])) 1,
    (h.2.2.2.2 3 (by decide) (by decide) (by decide)).2⟩

/-- Helper: a row list with no parsed keys trivially has no parsed row after
an unparsed one. -/
theorem noSomeAfterNone_of_noKeys {K δ : Type} (rows : List (Option K × δ))
    (h : parsedKeys rows = []) : noSomeAfterNone rows = true := by
  induction rows with
  | nil => rfl
  | cons r rest ih =>
    obtain ⟨ko, d⟩ := r
    cases ko with
    | some k => simp [parsedKeys] at h
    | none =>
      have h2 : parsedKeys rest = [] := by simpa [parsedKeys] using h
      simp [noSomeAfterNone, h2]

/-- Helper: an empty key list is monotone from any previous key. -/
theorem keysChainFrom_nil {K : Type} [LinearOrder K] (order : SortOrder) (prev : Option K) :
    keysChainFrom order prev [] := by
  cases prev <;> cases order <;> simp [keysChainFrom, keysMono]

/-- Helper: extending the monotone chain by one key is exactly passing the
inversion test of the loop and continuing from that key. -/
theorem keysChainFrom_cons {K : Type} [LinearOrder K] (order : SortOrder)
    (prev : Option K) (k : K) (ks : List K) :
    keysChainFrom order prev (k :: ks)
      ↔ (invCheck order prev k = false ∧ keysChainFrom order (some k) ks) := by
  cases prev with
  | none =>
    simp only [keysChainFrom, invCheck, true_and]
  | some pk =>
    cases order with
    | ascending =>
      simp only [keysChainFrom, keysMono, invCheck, List.chain'_cons,
        decide_eq_false_iff_not, not_lt]
    | descending =>
      simp only [keysChainFrom, keysMono, invCheck, List.chain'_cons,
        decide_eq_false_iff_not, not_lt]

/-- Helper: the scan loop of `sort_monthly_csv` computes the parsed pairs and
unparsed rows in file order, and its `already_sorted` flag holds exactly when
the parsed keys continue monotonically from the previous key, no parsed key
occurs at all if an unparsed row was already seen, and no parsed row follows
an unparsed one. -/
theorem scanRows_spec {K δ : Type} [LinearOrder K] (order : SortOrder) :
    ∀ (rows : List (Option K × δ)) (prev : Option K) (sawUnp : Bool),
      (scanRows order prev sawUnp rows).1 = parsedPairs rows
      ∧ (scanRows order prev sawUnp rows).2.1 = unparsedData rows
      ∧ ((scanRows order prev sawUnp rows).2.2 = true ↔
          (keysChainFrom order prev (parsedKeys rows)
           ∧ (sawUnp = true → parsedKeys rows = [])
           ∧ noSomeAfterNone rows = true)) := by
  intro rows
  induction rows with
  | nil =>
    intro prev sawUnp
    refine ⟨rfl, rfl, ?_⟩
    simp [scanRows, parsedKeys, noSomeAfterNone, keysChainFrom_nil order prev]
  | cons r rest ih =>
    intro prev sawUnp
    obtain ⟨ko, d⟩ := r
    cases ko with
    | none =>
      obtain ⟨ih1, ih2, ih3⟩ := ih prev true
      refine ⟨?_, ?_, ?_⟩
      · simpa [scanRows, parsedPairs] using ih1
      · simpa [scanRows, unparsedData] using ih2
      · have hscan : (scanRows order prev sawUnp ((none, d) :: rest)).2.2
            = (scanRows order prev true rest).2.2 := by
          simp [scanRows]
        have hpk : parsedKeys ((none, d) :: rest) = parsedKeys rest := by
          simp [parsedKeys]
        have hns : noSomeAfterNone ((none, d) :: rest) = (parsedKeys rest).isEmpty := by
          simp [noSomeAfterNone]
        rw [hscan, ih3, hpk, hns]
        constructor
        · rintro ⟨hch, hk, hn⟩
          have hk2 := hk rfl
          exact ⟨hch, fun _ => hk2, by simp [hk2]⟩
        · rintro ⟨hch, hk, hn⟩
          have hk2 : parsedKeys rest = [] := List.isEmpty_iff.mp hn
          exact ⟨hch, fun _ => hk2, noSomeAfterNone_of_noKeys rest hk2⟩
    | some k =>
      obtain ⟨ih1, ih2, ih3⟩ := ih (some k) sawUnp
      refine ⟨?_, ?_, ?_⟩
      · simpa [scanRows, parsedPairs] using ih1
      · simpa [scanRows, unparsedData] using ih2
      · have hscan : (scanRows order prev sawUnp ((some k, d) :: rest)).2.2
            = (!(sawUnp || invCheck order prev k)
                && (scanRows order (some k) sawUnp rest).2.2) := by
          simp [scanRows]
        have hpk : parsedKeys ((some k, d) :: rest) = k :: parsedKeys rest := by
          simp [parsedKeys]
        have hns : noSomeAfterNone ((some k, d) :: rest) = noSomeAfterNone rest := by
          simp [noSomeAfterNone]
        rw [hscan, hpk, hns, Bool.and_eq_true, Bool.not_eq_true',
          Bool.or_eq_false_iff, ih3, keysChainFrom_cons]
        constructor
        · rintro ⟨⟨hsu, hinv⟩, hch, himp, hn⟩
          refine ⟨⟨hinv, hch⟩, ?_, hn⟩
          intro h
          rw [h] at hsu
          exact absurd hsu (by simp)
        · rintro ⟨⟨hinv, hch⟩, himp, hn⟩
          have hsu : sawUnp = false := by
            cases hb : sawUnp with
            | false => rfl
            | true => exact absurd (himp hb) (by simp)
          refine ⟨⟨hsu, hinv⟩, hch, ?_, hn⟩
          intro h
          rw [h] at hsu
          exact absurd hsu (by simp)

/-- Helper: parsed pairs are empty exactly when parsed keys are. -/
theorem parsedPairs_eq_nil_iff {K δ : Type} (rows : List (Option K × δ)) :
    parsedPairs rows = [] ↔ parsedKeys rows = [] := by
  induction rows with
  | nil => simp [parsedPairs, parsedKeys]
  | cons r rest ih =>
    obtain ⟨ko, d⟩ := r
    cases ko with
    | some k => simp [parsedPairs, parsedKeys]
    | none => simpa [parsedPairs, parsedKeys] using ih

/-- C5: classification of `sort_monthly_csv`. A file with data rows but no
derivable sort key is `skipped`; a file whose parsed keys are already
monotone in the requested direction (ties keep file order) with no unparsed
row needing repositioning is `already` and left untouched; the file is
rewritten with result `sorted` exactly in the remaining cases, and any
non-`sorted` result leaves the file contents unchanged. -/
theorem c5_sort_classification {K δ : Type} [LinearOrder K] (order : SortOrder)
    (rows : List (Option K × δ)) :
    (rows ≠ [] → parsedKeys rows = [] →
      sort_monthly_csv order rows = ("skipped", rows))
    ∧ (keysMono order (parsedKeys rows) → noSomeAfterNone rows = true →
        (rows = [] ∨ parsedKeys rows ≠ []) →
        sort_monthly_csv order rows = ("already", rows))
    ∧ ((sort_monthly_csv order rows).1 = "sorted" ↔
        (rows ≠ [] ∧ parsedKeys rows ≠ []
          ∧ ¬(keysMono order (parsedKeys rows) ∧ noSomeAfterNone rows = true)))
    ∧ ((sort_monthly_csv order rows).1 ≠ "sorted" →
        (sort_monthly_csv order rows).2 = rows) := by
  obtain ⟨hs1, hs2, hs3⟩ := scanRows_spec order rows none false
  have hflag : (scanRows order none false rows).2.2 = true ↔
      (keysMono order (parsedKeys rows) ∧ noSomeAfterNone rows = true) := by
    rw [hs3]
    constructor
    · rintro ⟨hch, _, hn⟩; exact ⟨hch, hn⟩
    · rintro ⟨hch, hn⟩; exact ⟨hch, fun h => absurd h (by simp), hn⟩
  by_cases hrows : rows = []
  · subst hrows
    refine ⟨fun h => absurd rfl h, fun _ _ _ => rfl, ?_, fun _ => rfl⟩
    constructor
    · intro h; exact absurd h (by simp [sort_monthly_csv])
    · rintro ⟨h, _⟩; exact absurd rfl h
  · have hre : rows.isEmpty = false := by
      cases rows with
      | nil => exact absurd rfl hrows
      | cons a b => rfl
    by_cases hkeys : parsedKeys rows = []
    · have hp : (scanRows order none false rows).1.isEmpty = true := by
        rw [hs1]
        exact List.isEmpty_iff.mpr ((parsedPairs_eq_nil_iff rows).mpr hkeys)
      have hres : sort_monthly_csv order rows = ("skipped", rows) := by
        simp [sort_monthly_csv, hre, hp]
      refine ⟨fun _ _ => hres, ?_, ?_, ?_⟩
      · rintro _ _ (h | h)
        · exact absurd h hrows
        · exact absurd hkeys h
      · rw [hres]
        constructor
        · intro h; exact absurd h (by simp)
        · rintro ⟨_, h, _⟩; exact absurd hkeys h
      · rw [hres]; intro _; rfl
    · have hp : (scanRows order none false rows).1.isEmpty = false := by
        rw [hs1]
        cases hq : parsedPairs rows with
        | nil => exact absurd ((parsedPairs_eq_nil_iff rows).mp hq) hkeys
        | cons a b => rfl
      by_cases hfl : (scanRows order none false rows).2.2 = true
      · have hres : sort_monthly_csv order rows = ("already", rows) := by
          simp [sort_monthly_csv, hre, hp, hfl]
        obtain ⟨hmono, hns⟩ := hflag.mp hfl
        refine ⟨fun _ h => absurd h hkeys, fun _ _ _ => hres, ?_, ?_⟩
        · rw [hres]
          constructor
          · intro h; exact absurd h (by simp)
          · rintro ⟨_, _, h⟩; exact absurd ⟨hmono, hns⟩ h
        · rw [hres]; intro _; rfl
      · have hfl2 : (scanRows order none false rows).2.2 = false :=
          Bool.eq_false_iff.mpr hfl
        have hres : (sort_monthly_csv order rows).1 = "sorted" := by
          simp [sort_monthly_csv, hre, hp, hfl2]
        refine ⟨fun _ h => absurd h hkeys, ?_, ?_, ?_⟩
        · intro hmono hns _
          exact absurd (hflag.mpr ⟨hmono, hns⟩) hfl
        · rw [hres]
          constructor
          · intro _
            refine ⟨hrows, hkeys, ?_⟩
            intro hc
            exact absurd (hflag.mpr hc) hfl
          · intro _; rfl
        · intro h; exact absurd hres h

/-- Witness for C5: an already-ascending two-row file is `already`; a file
whose only data row has no derivable key is `skipped`. -/
theorem c5_sort_classification_witness :
    sort_monthly_csv SortOrder.ascending [((some 1 : Option Nat), "a"), (some 2, "b")]
      = ("already", [((some 1 : Option Nat), "a"), (some 2, "b")])
    ∧ sort_monthly_csv SortOrder.ascending [((none : Option Nat), "u")]
      = ("skipped", [((none : Option Nat), "u")]) := by
  constructor
  · exact (c5_sort_classification SortOrder.ascending
      [((some 1 : Option Nat), "a"), (some 2, "b")]).2.1
      (by simp [parsedKeys, keysMono, List.filterMap]) (by decide) (by decide)
  · exact (c5_sort_classification SortOrder.ascending
      [((none : Option Nat), "u")]).1 (by decide) (by decide)

/-- C9: the Sort Cache short-circuit fires only on an exact signature match —
version, sort order, sort strategy, size and mtime all equal to the current
request (and a `sorted`/`skipped` classification); whenever the file size
or modification time differs from the cached signature, the cache yields
nothing and `sort_monthly_csv` re-scans the file. -/
theorem c9_sort_cache_guard {K δ : Type} [LinearOrder K]
    (cached : Option SortCachePayload) (order : SortOrder) (strategy : String)
    (size_bytes mtime_ns : Int) (rows : List (Option K × δ)) :
    (∀ cls, cached_monthly_sort_classification cached order.str strategy
        size_bytes mtime_ns = some cls →
      ∃ p, cached = some p
        ∧ p.version = some MONTHLY_SORT_CACHE_VERSION
        ∧ p.sort_order = some order.str
        ∧ p.sort_strategy = some strategy
        ∧ p.size_bytes = some size_bytes
        ∧ p.mtime_ns = some mtime_ns
        ∧ (cls = "sorted" ∨ cls = "skipped"))
    ∧ (∀ p, cached = some p →
        (p.size_bytes ≠ some size_bytes ∨ p.mtime_ns ≠ some mtime_ns) →
        cached_monthly_sort_classification cached order.str strategy
            size_bytes mtime_ns = none
        ∧ sort_monthly_csv_cached cached order strategy size_bytes mtime_ns rows
            = sort_monthly_csv order rows) := by
  constructor
  · intro cls h
    cases cached with
    | none => exact absurd h (by simp [cached_monthly_sort_classification])
    | some p =>
      refine ⟨p, rfl, ?_⟩
      simp only [cached_monthly_sort_classification] at h
      split at h
      · exact absurd h (by simp)
      · split at h
        · exact absurd h (by simp)
        · split at h
          · exact absurd h (by simp)
          · split at h
            · exact absurd h (by simp)
            · split at h
              · exact absurd h (by simp)
              · rename_i hv ho hs hsz hmt
                split at h
                · rename_i hcls
                  refine ⟨not_ne_iff.mp hv, not_ne_iff.mp ho, not_ne_iff.mp hs,
                    not_ne_iff.mp hsz, not_ne_iff.mp hmt, ?_⟩
                  have hc := Option.some_inj.mp h
                  rw [← hc]
                  exact hcls
                · exact absurd h (by simp)
  · intro p hp hmism
    subst hp
    have hnone : cached_monthly_sort_classification (some p) order.str strategy
        size_bytes mtime_ns = none := by
      simp only [cached_monthly_sort_classification]
      split
      · rfl
      · split
        · rfl
        · split
          · rfl
          · split
            · rfl
            · split
              · rfl
              · rename_i hv ho hs hsz hmt
                rcases hmism with hm | hm
                · exact absurd (not_ne_iff.mp hsz) hm
                · exact absurd (not_ne_iff.mp hmt) hm
    refine ⟨hnone, ?_⟩
    unfold sort_monthly_csv_cached
    rw [hnone]

/-- Witness for C9: a cached `sorted` record whose `size_bytes` no longer
matches (file grew from 100 to 120 bytes) is ignored and the file re-scanned;
with the matching signature it short-circuits. -/
theorem c9_sort_cache_guard_witness :
    (cached_monthly_sort_classification
        (some ⟨some 1, some "ascending", some "auto", some "sorted", some 100, some 999⟩)
        SortOrder.ascending.str "auto" 120 999 = none
      ∧ sort_monthly_csv_cached
          (some ⟨some 1, some "ascending", some "auto", some "sorted", some 100, some 999⟩)
          SortOrder.ascending "auto" 120 999 [((some 2 : Option Nat), "x"), (some 1, "y")]
        = sort_monthly_csv SortOrder.ascending [((some 2 : Option Nat), "x"), (some 1, "y")])
    ∧ ∃ p, (some ⟨some 1, some "ascending", some "auto", some "sorted", some 100, some 999⟩
          : Option SortCachePayload) = some p
        ∧ p.version = some MONTHLY_SORT_CACHE_VERSION
        ∧ p.sort_order = some SortOrder.ascending.str
        ∧ p.sort_strategy = some "auto"
        ∧ p.size_bytes = some 100
        ∧ p.mtime_ns = some 999
        ∧ ("sorted" = "sorted" ∨ "sorted" = "skipped") := by
  constructor
  · exact (c9_sort_cache_guard
      (some ⟨some 1, some "ascending", some "auto", some "sorted", some 100, some 999⟩)
      SortOrder.ascending "auto" 120 999 [((some 2 : Option Nat), "x"), (some 1, "y")]).2
      ⟨some 1, some "ascending", some "auto", some "sorted", some 100, some 999⟩
      rfl (Or.inl (by decide))
  · exact (c9_sort_cache_guard
      (some ⟨some 1, some "ascending", some "auto", some "sorted", some 100, some 999⟩)
      SortOrder.ascending "auto" 100 999 [((some 2 : Option Nat), "x"), (some 1, "y")]).1
      "sorted" (by decide)

/-- Helper: `list.pop()` returns the last element, leaving the front. -/
theorem popLast_eq (vs : List String) (v : String) (rem : List String)
    (h : popLast vs = some (v, rem)) : vs = rem ++ [v] := by
  unfold popLast at h
  cases hr : vs.reverse with
  | nil => rw [hr] at h; simp at h
  | cons a t =>
    rw [hr] at h
    have h2 := Option.some_inj.mp h
    have h3 : a = v := ((Prod.mk.injEq a t.reverse v rem).mp h2).1
    have h4 : t.reverse = rem := ((Prod.mk.injEq a t.reverse v rem).mp h2).2
    calc vs = vs.reverse.reverse := (List.reverse_reverse vs).symm
    _ = (a :: t).reverse := by rw [hr]
    _ = t.reverse ++ [a] := by simp
    _ = rem ++ [v] := by rw [h3, h4]

/-- Helper: replacing the value list under a present fingerprint changes the
index total by exactly the length difference. -/
theorem fpTotal_fpSet (m : FpMap) (fp : List String) (vs rem : List String)
    (h : fpGet m fp = some vs) :
    fpTotal (fpSet m fp rem) + vs.length = fpTotal m + rem.length := by
  induction m with
  | nil => simp [fpGet] at h
  | cons e t ih =>
    by_cases he : (e.1 == fp) = true
    · have hv : vs = e.2 := by
        unfold fpGet at h
        rw [if_pos he] at h
        exact (Option.some_inj.mp h).symm
      simp [fpSet, he, fpTotal, hv]
      omega
    · have hb : (e.1 == fp) = false := by rwa [Bool.not_eq_true] at he
      have h2 : fpGet t fp = some vs := by
        unfold fpGet at h
        rwa [if_neg (by simp [hb])] at h
      have := ih h2
      simp [fpSet, hb, fpTotal] at *
      omega

/-- Helper: one fill step consumes at least as many source values as cells it
fills. -/
theorem fillRowStep_consumes (post_field : String) (key_fields : List String)
    (ambiguous : List (List String)) (m : FpMap) (row : CsvRow) :
    (fillRowStep post_field key_fields ambiguous m row).2.2.1
      + fpTotal ((fillRowStep post_field key_fields ambiguous m row).2.1)
      ≤ fpTotal m := by
  unfold fillRowStep
  split
  · simp
  · split
    · simp
    · split
      · simp
      · split
        · simp
        · rename_i x1 vs hvs x2 v rem hpop
          have hlen : vs.length = rem.length + 1 := by
            rw [popLast_eq vs v rem hpop]; simp
          have htot := fpTotal_fpSet m (row_fingerprint row key_fields) vs rem hvs
          split
          · dsimp only
            omega
          · dsimp only
            omega

/-- Helper: one fill step leaves a nonblank row untouched, and leaves any row
whose fingerprint is marked ambiguous untouched. -/
theorem fillRowStep_row_rel (post_field : String) (key_fields : List String)
    (ambiguous : List (List String)) (m : FpMap) (row : CsvRow) :
    (¬rowBlank post_field row →
      (fillRowStep post_field key_fields ambiguous m row).1 = row)
    ∧ (row_fingerprint row key_fields ∈ ambiguous →
      (fillRowStep post_field key_fields ambiguous m row).1 = row) := by
  unfold fillRowStep
  split
  · exact ⟨fun _ => rfl, fun _ => rfl⟩
  · rename_i hblank
    have hb : rowBlank post_field row := of_not_not hblank
    split
    · exact ⟨fun _ => rfl, fun _ => rfl⟩
    · rename_i hnotamb
      split
      · exact ⟨fun _ => rfl, fun _ => rfl⟩
      · split
        · exact ⟨fun _ => rfl, fun _ => rfl⟩
        · split
          · exact ⟨fun hnb => absurd hb hnb, fun hmem => absurd hmem hnotamb⟩
          · exact ⟨fun _ => rfl, fun _ => rfl⟩

/-- Helper: across the whole fill loop, cells filled plus source values still
available never exceed the source values initially available — matched
fingerprints are consumed one-for-one. -/
theorem fillLoop_consumes (post_field : String) (key_fields : List String)
    (ambiguous : List (List String)) :
    ∀ (rows : List CsvRow) (m : FpMap),
      (fillLoop post_field key_fields ambiguous m rows).2.2.1
        + fpTotal ((fillLoop post_field key_fields ambiguous m rows).2.1)
        ≤ fpTotal m := by
  intro rows
  induction rows with
  | nil => intro m; simp [fillLoop]
  | cons row rest ih =>
    intro m
    have hstep := fillRowStep_consumes post_field key_fields ambiguous m row
    have hrest := ih (fillRowStep post_field key_fields ambiguous m row).2.1
    simp only [fillLoop]
    omega

/-- Helper: the fill loop leaves nonblank rows and ambiguous-fingerprint rows
untouched, position by position. -/
theorem fillLoop_rows_rel (post_field : String) (key_fields : List String)
    (ambiguous : List (List String)) :
    ∀ (rows : List CsvRow) (m : FpMap),
      List.Forall₂ (fun r r2 =>
          (¬rowBlank post_field r → r2 = r)
          ∧ (row_fingerprint r key_fields ∈ ambiguous → r2 = r))
        rows (fillLoop post_field key_fields ambiguous m rows).1 := by
  intro rows
  induction rows with
  | nil => intro m; exact List.Forall₂.nil
  | cons row rest ih =>
    intro m
    obtain ⟨h1, h2⟩ := fillRowStep_row_rel post_field key_fields ambiguous m row
    exact List.Forall₂.cons
      ⟨fun hnb => (h1 hnb).symm ▸ rfl, fun hmem => (h2 hmem).symm ▸ rfl⟩
      (ih (fillRowStep post_field key_fields ambiguous m row).2.1)

/-- Helper: a colliding fingerprint corresponds to an index entry with more
than one source value. -/
theorem fpColliding_entry (m : FpMap) (fp : List String)
    (h : fpColliding m fp) : ∃ e ∈ m, e.1 = fp ∧ 1 < e.2.length := by
  obtain ⟨vs, hget, hlen⟩ := h
  induction m with
  | nil => simp [fpGet] at hget
  | cons e t ih =>
    by_cases he : (e.1 == fp) = true
    · have hv : vs = e.2 := by
        unfold fpGet at hget
        rw [if_pos he] at hget
        exact (Option.some_inj.mp hget).symm
      exact ⟨e, List.mem_cons_self e t, by simpa using he, hv ▸ hlen⟩
    · have hb : (e.1 == fp) = false := by rwa [Bool.not_eq_true] at he
      have h2 : fpGet t fp = some vs := by
        unfold fpGet at hget
        rwa [if_neg (by simp [hb])] at hget
      obtain ⟨e2, hm, hfp, hl⟩ := ih h2
      exact ⟨e2, List.mem_cons_of_mem e hm, hfp, hl⟩

/-- Helper: every colliding fingerprint is marked ambiguous. -/
theorem fpColliding_mem_ambiguousFps (m : FpMap) (fp : List String)
    (h : fpColliding m fp) : fp ∈ ambiguousFps m := by
  obtain ⟨e, hmem, he1, hlen⟩ := fpColliding_entry m fp h
  unfold ambiguousFps
  refine List.mem_map.mpr ⟨e, ?_, he1⟩
  exact List.mem_filter.mpr ⟨hmem, by simpa using hlen⟩

/-- Helper: a collision makes the collision count nonzero. -/
theorem countCollisions_ne_zero (m : FpMap) (fp : List String)
    (h : fpColliding m fp) : countCollisions m ≠ 0 := by
  obtain ⟨e, hmem, he1, hlen⟩ := fpColliding_entry m fp h
  unfold countCollisions
  have hin : e ∈ m.filter (fun e => decide (1 < e.2.length)) :=
    List.mem_filter.mpr ⟨hmem, by simpa using hlen⟩
  have hpos := List.length_pos.mpr (List.ne_nil_of_mem hin)
  omega

/-- C6: in overwrite backfill mode, when any fingerprint is shared by more
than one source row, an error-level collision signal is emitted, every
colliding fingerprint is marked ambiguous, and no blank row whose fingerprint
collides is ever filled — it is left exactly as it was (empty). -/
theorem c6_overwrite_collision_safety (rows : List CsvRow) (key_fields : List String)
    (post_field : String) (doc_plan : List DocPlanEntry)
    (hcol : ∃ fp, fpColliding (source_fingerprints key_fields doc_plan) fp) :
    (fill_rows_by_source_fingerprint rows key_fields post_field doc_plan true).collision_signal
        = some "ERROR"
    ∧ (∀ fp, fpColliding (source_fingerprints key_fields doc_plan) fp →
        fp ∈ ambiguousFps (source_fingerprints key_fields doc_plan))
    ∧ List.Forall₂ (fun r r2 =>
        rowBlank post_field r →
        fpColliding (source_fingerprints key_fields doc_plan) (row_fingerprint r key_fields) →
        r2 = r)
      rows (fill_rows_by_source_fingerprint rows key_fields post_field doc_plan true).rows := by
  obtain ⟨fp0, hfp0⟩ := hcol
  have hcc : countCollisions (source_fingerprints key_fields doc_plan) ≠ 0 :=
    countCollisions_ne_zero _ fp0 hfp0
  have hamb : (if countCollisions (source_fingerprints key_fields doc_plan) ≠ 0 ∧ true = true
      then ambiguousFps (source_fingerprints key_fields doc_plan) else [])
      = ambiguousFps (source_fingerprints key_fields doc_plan) := if_pos ⟨hcc, rfl⟩
  refine ⟨?_, ?_, ?_⟩
  · show (if countCollisions (source_fingerprints key_fields doc_plan) ≠ 0
        then some (if true = true then "ERROR" else "WARN") else none) = some "ERROR"
    rw [if_pos hcc]
    rfl
  · intro fp h
    exact fpColliding_mem_ambiguousFps _ fp h
  · have hrows : (fill_rows_by_source_fingerprint rows key_fields post_field doc_plan true).rows
        = (fillLoop post_field key_fields
            (ambiguousFps (source_fingerprints key_fields doc_plan))
            (source_fingerprints key_fields doc_plan) rows).1 := by
      show (fillLoop post_field key_fields
          (if countCollisions (source_fingerprints key_fields doc_plan) ≠ 0 ∧ true = true
            then ambiguousFps (source_fingerprints key_fields doc_plan) else [])
          (source_fingerprints key_fields doc_plan) rows).1 = _
      rw [hamb]
    rw [hrows]
    refine List.Forall₂.imp ?_ (fillLoop_rows_rel post_field key_fields
      (ambiguousFps (source_fingerprints key_fields doc_plan)) rows
      (source_fingerprints key_fields doc_plan))
    rintro r r2 ⟨h1, h2⟩ hb hc
    exact h2 (fpColliding_mem_ambiguousFps _ _ hc)

/-- Witness for C6: two source docs share the fingerprint `("A")`; in
overwrite mode the blank period row with that fingerprint stays blank and the
signal is `ERROR`. -/
theorem c6_overwrite_collision_safety_witness :
    (fill_rows_by_source_fingerprint [[("postDateTime", ""), ("zone", "A")]] ["zone"]
        "postDateTime" [⟨"P1", [[("zone", "A")]]⟩, ⟨"P2", [[("zone", "A")]]⟩]
        true).collision_signal = some "ERROR"
    ∧ List.Forall₂ (fun r r2 =>
        rowBlank "postDateTime" r →
        fpColliding (source_fingerprints ["zone"]
            [⟨"P1", [[("zone", "A")]]⟩, ⟨"P2", [[("zone", "A")]]⟩])
          (row_fingerprint r ["zone"]) →
        r2 = r)
      [[("postDateTime", ""), ("zone", "A")]]
      (fill_rows_by_source_fingerprint [[("postDateTime", ""), ("zone", "A")]] ["zone"]
        "postDateTime" [⟨"P1", [[("zone", "A")]]⟩, ⟨"P2", [[("zone", "A")]]⟩] true).rows := by
  have h := c6_overwrite_collision_safety
    [[("postDateTime", ""), ("zone", "A")]] ["zone"] "postDateTime"
    [⟨"P1", [[("zone", "A")]]⟩, ⟨"P2", [[("zone", "A")]]⟩]
    ⟨["A"], ⟨["P1", "P2"], by decide, by decide⟩⟩
  exact ⟨h.1, h.2.2⟩

/-- C1 counterexample: in add-missing (non-overwrite) mode, a blank
authoritative-timestamp cell whose fingerprint `("A")` is a known collision
(two source rows share it) is NOT left blank: `fill_rows_by_source_fingerprint`
fills it with the most recently indexed colliding value `P2` and counts one
filled cell — refuting the claim that colliding blank cells remain blank in
add-missing mode. -/
theorem c1_add_missing_collision_filled :
    fpGet (source_fingerprints ["zone"]
        [⟨"P1", [[("zone", "A")]]⟩, ⟨"P2", [[("zone", "A")]]⟩]) ["A"]
      = some ["P1", "P2"]
    ∧ rowBlank "postDateTime" [("postDateTime", ""), ("zone", "A")]
    ∧ row_fingerprint [("postDateTime", ""), ("zone", "A")] ["zone"] = ["A"]
    ∧ (fill_rows_by_source_fingerprint [[("postDateTime", ""), ("zone", "A")]] ["zone"]
        "postDateTime" [⟨"P1", [[("zone", "A")]]⟩, ⟨"P2", [[("zone", "A")]]⟩] false).rows
      = [[("postDateTime", "P2"), ("zone", "A")]]
    ∧ (fill_rows_by_source_fingerprint [[("postDateTime", ""), ("zone", "A")]] ["zone"]
        "postDateTime" [⟨"P1", [[("zone", "A")]]⟩, ⟨"P2", [[("zone", "A")]]⟩]
        false).cells_filled = 1 := by
  decide

/-- C1 (amended): in add-missing mode, when any fingerprint collides a
WARN-level (not error-level) collision signal is emitted and cells already
filled are left untouched; blank cells — including those matching colliding
fingerprints — are filled by popping one available source value each, so
matched fingerprints are consumed one-for-one (cells filled plus values
remaining never exceed the values initially available). Only overwrite mode
leaves colliding cells blank. -/
theorem c1_add_missing_amended (rows : List CsvRow) (key_fields : List String)
    (post_field : String) (doc_plan : List DocPlanEntry)
    (hcol : ∃ fp, fpColliding (source_fingerprints key_fields doc_plan) fp) :
    (fill_rows_by_source_fingerprint rows key_fields post_field doc_plan false).collision_signal
        = some "WARN"
    ∧ List.Forall₂ (fun r r2 => ¬rowBlank post_field r → r2 = r)
        rows (fill_rows_by_source_fingerprint rows key_fields post_field doc_plan false).rows
    ∧ (fill_rows_by_source_fingerprint rows key_fields post_field doc_plan false).cells_filled
        + fpTotal ((fillLoop post_field key_fields []
            (source_fingerprints key_fields doc_plan) rows).2.1)
        ≤ fpTotal (source_fingerprints key_fields doc_plan) := by
  obtain ⟨fp0, hfp0⟩ := hcol
  have hcc : countCollisions (source_fingerprints key_fields doc_plan) ≠ 0 :=
    countCollisions_ne_zero _ fp0 hfp0
  have hamb : (if countCollisions (source_fingerprints key_fields doc_plan) ≠ 0 ∧ false = true
      then ambiguousFps (source_fingerprints key_fields doc_plan) else [])
      = [] := if_neg (by simp)
  have hrows : (fill_rows_by_source_fingerprint rows key_fields post_field doc_plan false).rows
      = (fillLoop post_field key_fields []
          (source_fingerprints key_fields doc_plan) rows).1 := by
    show (fillLoop post_field key_fields
        (if countCollisions (source_fingerprints key_fields doc_plan) ≠ 0 ∧ false = true
          then ambiguousFps (source_fingerprints key_fields doc_plan) else [])
        (source_fingerprints key_fields doc_plan) rows).1 = _
    rw [hamb]
  have hcells : (fill_rows_by_source_fingerprint rows key_fields post_field doc_plan false).cells_filled
      = (fillLoop post_field key_fields []
          (source_fingerprints key_fields doc_plan) rows).2.2.1 := by
    show (fillLoop post_field key_fields
        (if countCollisions (source_fingerprints key_fields doc_plan) ≠ 0 ∧ false = true
          then ambiguousFps (source_fingerprints key_fields doc_plan) else [])
        (source_fingerprints key_fields doc_plan) rows).2.2.1 = _
    rw [hamb]
  refine ⟨?_, ?_, ?_⟩
  · show (if countCollisions (source_fingerprints key_fields doc_plan) ≠ 0
        then some (if false = true then "ERROR" else "WARN") else none) = some "WARN"
    rw [if_pos hcc]
    rfl
  · rw [hrows]
    refine List.Forall₂.imp ?_ (fillLoop_rows_rel post_field key_fields []
      rows (source_fingerprints key_fields doc_plan))
    rintro r r2 ⟨h1, h2⟩ hnb
    exact h1 hnb
  · rw [hcells]
    exact fillLoop_consumes post_field key_fields []
      rows (source_fingerprints key_fields doc_plan)

/-- Witness for C1 (amended) at the colliding two-doc plan: the signal is
`WARN` and the nonblank-rows-untouched relation holds. -/
theorem c1_add_missing_amended_witness :
    (fill_rows_by_source_fingerprint [[("postDateTime", ""), ("zone", "A")]] ["zone"]
        "postDateTime" [⟨"P1", [[("zone", "A")]]⟩, ⟨"P2", [[("zone", "A")]]⟩]
        false).collision_signal = some "WARN"
    ∧ List.Forall₂ (fun r r2 => ¬rowBlank "postDateTime" r → r2 = r)
        [[("postDateTime", ""), ("zone", "A")]]
        (fill_rows_by_source_fingerprint [[("postDateTime", ""), ("zone", "A")]] ["zone"]
          "postDateTime" [⟨"P1", [[("zone", "A")]]⟩, ⟨"P2", [[("zone", "A")]]⟩] false).rows := by
  have h := c1_add_missing_amended
    [[("postDateTime", ""), ("zone", "A")]] ["zone"] "postDateTime"
    [⟨"P1", [[("zone", "A")]]⟩, ⟨"P2", [[("zone", "A")]]⟩]
    ⟨["A"], ⟨["P1", "P2"], by decide, by decide⟩⟩
  exact ⟨h.1, h.2.1⟩
